import Mathlib

/-!
Verification of the in-memory todo service (`src/todo/todo.service.ts`) and
its HTTP controller (`todo.controller.ts`).

The service keeps an array `todos : Todo[]` and a counter `idCounter` that
starts at 1.  We embed the state as a structure over `List Todo`.  JavaScript
`Date` timestamps are embedded as natural numbers: every mutating operation
receives the value of "the current time" as an explicit `now` argument.
-/

namespace TodoApp

/-- The `Todo` entity (`entities/todo.entity.ts`): id, title, completion flag
and the two timestamps. -/
structure Todo where
  id : Nat
  title : String
  isCompleted : Bool
  createdAt : Nat
  updatedAt : Nat
  deriving Repr, DecidableEq

/-- The `UpdateTodoDto` (`dto/update-todo.dto.ts`): both fields optional. -/
structure UpdateTodoDto where
  title : Option String
  isCompleted : Option Bool
  deriving Repr, DecidableEq

/-- The private state of `TodoService`: the `todos` array and `idCounter`. -/
structure ServiceState where
  todos : List Todo
  idCounter : Nat
  deriving Repr, DecidableEq

/-- Fresh service instance: `todos = []`, `idCounter = 1`. -/
def initialState : ServiceState :=
  { todos := [], idCounter := 1 }

/-- Service operation `TodoService.create`: builds a record with `id = idCounter++`,
`isCompleted = false`, both timestamps stamped to the current time, and
pushes it at the end of the array.  Returns the new record together with
the successor state.  Note that the source performs no validation of
`title` whatsoever (and `CreateTodoDto` carries no validation decorators). -/
def create (s : ServiceState) (title : String) (now : Nat) : Todo × ServiceState :=
  let todo : Todo :=
    { id := s.idCounter, title := title, isCompleted := false,
      createdAt := now, updatedAt := now }
  (todo, { todos := s.todos ++ [todo], idCounter := s.idCounter + 1 })

/-- Service operation `TodoService.findAll`: returns the array. -/
def findAll (s : ServiceState) : List Todo :=
  s.todos

/-- Service operation `TodoService.findOne`: `this.todos.find(todo => todo.id === id)` —
first record whose id matches, `none` when there is no match. -/
def findOne (s : ServiceState) (id : Nat) : Option Todo :=
  s.todos.find? (fun t => t.id == id)

/-- The effect of `Object.assign(todo, updateTodoDto, { updatedAt: new Date() })`
on the found record: a field of the dto overwrites the corresponding field
exactly when it is present, and `updatedAt` is overwritten last. -/
def applyPatch (t : Todo) (p : UpdateTodoDto) (now : Nat) : Todo :=
  { t with
    title := p.title.getD t.title
    isCompleted := p.isCompleted.getD t.isCompleted
    updatedAt := now }

/-- In-place mutation of the record found by `findOne`: replace the first
list element whose id matches by the given record. -/
def setFirst (id : Nat) (t' : Todo) : List Todo → List Todo
  | [] => []
  | t :: ts => if t.id == id then t' :: ts else t :: setFirst id t' ts

/-- Service operation `TodoService.update`: looks the record up via `findOne`; `none` when
absent; otherwise mutates the found record in place with `Object.assign`
and returns it. -/
def update (s : ServiceState) (id : Nat) (p : UpdateTodoDto) (now : Nat) :
    Option Todo × ServiceState :=
  match findOne s id with
  | none => (none, s)
  | some t =>
    let t' := applyPatch t p now
    (some t', { s with todos := setFirst id t' s.todos })

/-- Service operation `TodoService.remove`: the filter
`this.todos = this.todos.filter(todo => todo.id !== id)`,
returning whether the length changed.  The counter is not touched. -/
def remove (s : ServiceState) (id : Nat) : Bool × ServiceState :=
  let remaining := s.todos.filter (fun t => t.id != id)
  (remaining.length != s.todos.length, { s with todos := remaining })

/-- One service operation of a trace.  Mutating operations carry the value
of the clock at the moment they run. -/
inductive Op where
  | create (title : String) (now : Nat)
  | update (id : Nat) (patch : UpdateTodoDto) (now : Nat)
  | remove (id : Nat)
  deriving Repr, DecidableEq

/-- State transition of one operation (the returned value is discarded). -/
def step (s : ServiceState) : Op → ServiceState
  | Op.create title now => (create s title now).2
  | Op.update id p now => (update s id p now).2
  | Op.remove id => (remove s id).2

/-- Run a trace of operations from the fresh service state. -/
def run (ops : List Op) : ServiceState :=
  ops.foldl step initialState

/-- The ids of the records, in array order. -/
def idsOf (l : List Todo) : List Nat :=
  l.map Todo.id

/-!  ## Generic list helpers -/

theorem find?_cons_pos {α : Type} (p : α → Bool) (a : α) (l : List α) (h : p a = true) :
    (a :: l).find? p = some a := by
  simp [List.find?, h]

theorem find?_cons_neg {α : Type} (p : α → Bool) (a : α) (l : List α) (h : p a = false) :
    (a :: l).find? p = l.find? p := by
  simp [List.find?, h]

theorem find?_decomp {α : Type} {p : α → Bool} {l : List α} {a : α}
    (h : l.find? p = some a) :
    ∃ l1 l2, l = l1 ++ a :: l2 ∧ ∀ x ∈ l1, p x = false := by
  induction l with
  | nil => simp at h
  | cons b bs ih =>
    cases hpb : p b with
    | true =>
      rw [find?_cons_pos p b bs hpb] at h
      cases h
      exact ⟨[], bs, rfl, by simp⟩
    | false =>
      rw [find?_cons_neg p b bs hpb] at h
      obtain ⟨l1, l2, rfl, hl1⟩ := ih h
      refine ⟨b :: l1, l2, rfl, ?_⟩
      intro x hx
      rcases List.mem_cons.mp hx with rfl | hx
      · exact hpb
      · exact hl1 x hx

theorem find?_filter_of_imp {α : Type} {p q : α → Bool}
    (h : ∀ x, q x = true → p x = true) (l : List α) :
    (l.filter p).find? q = l.find? q := by
  induction l with
  | nil => rfl
  | cons b bs ih =>
    cases hpb : p b with
    | true =>
      rw [List.filter_cons_of_pos hpb]
      cases hqb : q b with
      | true => rw [find?_cons_pos q b (bs.filter p) hqb, find?_cons_pos q b bs hqb]
      | false =>
        rw [find?_cons_neg q b (bs.filter p) hqb, find?_cons_neg q b bs hqb]
        exact ih
    | false =>
      rw [List.filter_cons_of_neg (by simp [hpb])]
      have hqb : q b = false := by
        cases hq2 : q b with
        | true => exact absurd (h b hq2) (by simp [hpb])
        | false => rfl
      rw [find?_cons_neg q b bs hqb]
      exact ih

theorem length_filter_lt_of_mem {α : Type} {p : α → Bool} {l : List α} {x : α}
    (hx : x ∈ l) (hpx : p x = false) : (l.filter p).length < l.length := by
  induction l with
  | nil => cases hx
  | cons b bs ih =>
    rcases List.mem_cons.mp hx with rfl | hx
    · rw [List.filter_cons_of_neg (by simp [hpx])]
      exact Nat.lt_succ_of_le (List.length_filter_le p bs)
    · cases hpb : p b with
      | true =>
        rw [List.filter_cons_of_pos hpb]
        exact Nat.succ_lt_succ (ih hx)
      | false =>
        rw [List.filter_cons_of_neg (by simp [hpb])]
        exact Nat.lt_trans (ih hx) (Nat.lt_succ_self _)

/-!  ## Helpers about `setFirst` -/

theorem setFirst_decomp {id : Nat} (t' : Todo) {l1 : List Todo} (l2 : List Todo) {t : Todo}
    (hl1 : ∀ x ∈ l1, (x.id == id) = false) (ht : (t.id == id) = true) :
    setFirst id t' (l1 ++ t :: l2) = l1 ++ t' :: l2 := by
  induction l1 with
  | nil => simp [setFirst, ht]
  | cons b bs ih =>
    have hb : (b.id == id) = false := hl1 b (List.mem_cons_self b bs)
    simp only [List.cons_append, setFirst, hb]
    simp only [Bool.false_eq_true, if_false, List.cons.injEq, true_and]
    exact ih fun x hx => hl1 x (List.mem_cons_of_mem b hx)

theorem mem_setFirst {id : Nat} {t' : Todo} {l : List Todo} {u : Todo}
    (h : u ∈ setFirst id t' l) : u = t' ∨ u ∈ l := by
  induction l with
  | nil => simp [setFirst] at h
  | cons b bs ih =>
    by_cases hb : (b.id == id) = true
    · rw [setFirst, if_pos hb] at h
      rcases List.mem_cons.mp h with rfl | h
      · exact Or.inl rfl
      · exact Or.inr (List.mem_cons_of_mem b h)
    · rw [setFirst, if_neg hb] at h
      rcases List.mem_cons.mp h with rfl | h
      · exact Or.inr (List.mem_cons_self _ _)
      · rcases ih h with h' | h'
        · exact Or.inl h'
        · exact Or.inr (List.mem_cons_of_mem b h')

theorem setFirst_length (id : Nat) (t' : Todo) (l : List Todo) :
    (setFirst id t' l).length = l.length := by
  induction l with
  | nil => rfl
  | cons b bs ih =>
    by_cases hb : (b.id == id) = true
    · rw [setFirst, if_pos hb]
      simp
    · rw [setFirst, if_neg hb]
      simp [ih]

theorem idsOf_setFirst {id : Nat} {t' : Todo} (h : t'.id = id) (l : List Todo) :
    idsOf (setFirst id t' l) = idsOf l := by
  induction l with
  | nil => rfl
  | cons b bs ih =>
    by_cases hb : (b.id == id) = true
    · have hbid : b.id = id := by simpa using hb
      rw [setFirst, if_pos hb]
      simp [idsOf, h, hbid]
    · rw [setFirst, if_neg hb]
      simp only [idsOf, List.map_cons]
      rw [show (setFirst id t' bs).map Todo.id = idsOf (setFirst id t' bs) from rfl, ih]
      rfl

theorem find?_setFirst_ne {uid id : Nat} (hne : uid ≠ id) {t' : Todo}
    (ht' : t'.id = uid) (l : List Todo) :
    (setFirst uid t' l).find? (fun x => x.id == id) = l.find? (fun x => x.id == id) := by
  induction l with
  | nil => rfl
  | cons b bs ih =>
    by_cases hb : (b.id == uid) = true
    · have hbid : b.id = uid := by simpa using hb
      rw [setFirst, if_pos hb]
      have h1 : (t'.id == id) = false := by simp [ht', hne]
      have h2 : (b.id == id) = false := by simp [hbid, hne]
      rw [find?_cons_neg _ t' bs h1, find?_cons_neg _ b bs h2]
    · rw [setFirst, if_neg hb]
      cases hbq : (b.id == id) with
      | true =>
        rw [find?_cons_pos _ b (setFirst uid t' bs) hbq, find?_cons_pos _ b bs hbq]
      | false =>
        rw [find?_cons_neg _ b (setFirst uid t' bs) hbq, find?_cons_neg _ b bs hbq]
        exact ih

/-!  ## The reachable-state invariant

Ids along the array are strictly increasing (so the array is in creation
order and ids are unique), and every id is below the counter. -/

def Inv (s : ServiceState) : Prop :=
  (idsOf s.todos).Pairwise (· < ·) ∧ ∀ t ∈ s.todos, t.id < s.idCounter

theorem inv_initialState : Inv initialState := by
  constructor <;> simp [initialState, idsOf]

theorem inv_create {s : ServiceState} (h : Inv s) (title : String) (now : Nat) :
    Inv (create s title now).2 := by
  obtain ⟨hpw, hlt⟩ := h
  constructor
  · simp only [create, idsOf, List.map_append]
    rw [List.pairwise_append]
    refine ⟨hpw, by simp, ?_⟩
    intro a ha b hb
    simp only [idsOf, List.mem_map] at ha
    obtain ⟨t, ht, rfl⟩ := ha
    simp at hb
    rw [hb]
    exact hlt t ht
  · intro t ht
    simp only [create, List.mem_append] at ht
    rcases ht with ht | ht
    · exact Nat.lt_trans (hlt t ht) (Nat.lt_succ_self _)
    · simp at ht
      rw [ht]
      exact Nat.lt_succ_self _

theorem inv_update {s : ServiceState} (h : Inv s) (id : Nat) (p : UpdateTodoDto) (now : Nat) :
    Inv (update s id p now).2 := by
  obtain ⟨hpw, hlt⟩ := h
  rw [update]
  cases hf : findOne s id with
  | none => exact ⟨hpw, hlt⟩
  | some t =>
    have hf' : s.todos.find? (fun x => x.id == id) = some t := hf
    have htmem : t ∈ s.todos := List.mem_of_find?_eq_some hf'
    have htid := List.find?_some hf'
    have htid' : t.id = id := by simpa using htid
    have hpid : (applyPatch t p now).id = id := htid'
    constructor
    · simpa [idsOf_setFirst hpid s.todos] using hpw
    · intro u hu
      rcases mem_setFirst hu with rfl | hu
      · show t.id < s.idCounter
        exact hlt t htmem
      · exact hlt u hu

theorem inv_remove {s : ServiceState} (h : Inv s) (id : Nat) :
    Inv (remove s id).2 := by
  obtain ⟨hpw, hlt⟩ := h
  constructor
  · have hsub : (idsOf (remove s id).2.todos).Sublist (idsOf s.todos) := by
      simp only [remove, idsOf]
      exact (List.filter_sublist s.todos).map Todo.id
    exact hpw.sublist hsub
  · intro u hu
    simp only [remove, List.mem_filter] at hu
    exact hlt u hu.1

theorem inv_step {s : ServiceState} (h : Inv s) (op : Op) : Inv (step s op) := by
  cases op with
  | create title now => exact inv_create h title now
  | update id p now => exact inv_update h id p now
  | remove id => exact inv_remove h id

theorem inv_foldl {s : ServiceState} (h : Inv s) (ops : List Op) :
    Inv (ops.foldl step s) := by
  induction ops generalizing s with
  | nil => exact h
  | cons op ops ih => exact ih (inv_step h op)

theorem inv_run (ops : List Op) : Inv (run ops) :=
  inv_foldl inv_initialState ops

/-- The id counter never decreases across any operation. -/
theorem idCounter_le_step (s : ServiceState) (op : Op) :
    s.idCounter ≤ (step s op).idCounter := by
  cases op with
  | create title now => exact Nat.le_succ _
  | update id p now =>
    rw [step, update]
    cases hf : findOne s id with
    | none => exact Nat.le_refl _
    | some t => exact Nat.le_refl _
  | remove id => exact Nat.le_refl _

/-!  ## Ids handed out by `create` along a trace -/

/-- The ids returned by the `create` calls of a trace, in call order,
starting from state `s`. -/
def createdIds (s : ServiceState) : List Op → List Nat
  | [] => []
  | Op.create title now :: ops =>
      (create s title now).1.id :: createdIds (create s title now).2 ops
  | Op.update id p now :: ops => createdIds (update s id p now).2 ops
  | Op.remove id :: ops => createdIds (remove s id).2 ops

theorem createdIds_lower_bound (ops : List Op) :
    ∀ (s : ServiceState), ∀ x ∈ createdIds s ops, s.idCounter ≤ x := by
  induction ops with
  | nil => intro s x hx; simp [createdIds] at hx
  | cons op ops ih =>
    intro s x hx
    cases op with
    | create title now =>
      simp only [createdIds] at hx
      rcases List.mem_cons.mp hx with rfl | hx
      · exact Nat.le_refl _
      · exact Nat.le_of_succ_le (ih (create s title now).2 x hx)
    | update id p now =>
      simp only [createdIds] at hx
      exact Nat.le_trans (idCounter_le_step s (Op.update id p now)) (ih _ x hx)
    | remove id =>
      simp only [createdIds] at hx
      exact Nat.le_trans (idCounter_le_step s (Op.remove id)) (ih _ x hx)

theorem createdIds_pairwise (ops : List Op) :
    ∀ s : ServiceState, (createdIds s ops).Pairwise (· < ·) := by
  induction ops with
  | nil => intro s; simp [createdIds]
  | cons op ops ih =>
    intro s
    cases op with
    | create title now =>
      simp only [createdIds]
      rw [List.pairwise_cons]
      refine ⟨?_, ih _⟩
      intro b hb
      exact createdIds_lower_bound ops (create s title now).2 b hb
    | update id p now => simp only [createdIds]; exact ih _
    | remove id => simp only [createdIds]; exact ih _

/-- C1: over every trace of service operations (create, update, remove in
any interleaving), the ids returned by the successive `create` calls are
strictly increasing, and hence never repeated or reused — even after the
record bearing an id has been removed (`remove` never touches the
counter). -/
theorem c1_create_ids_strictly_increasing (ops : List Op) :
    (createdIds initialState ops).Pairwise (· < ·)
    ∧ (createdIds initialState ops).Nodup := by
  refine ⟨createdIds_pairwise ops initialState, ?_⟩
  exact (createdIds_pairwise ops initialState).imp fun h => Nat.ne_of_lt h

/-- C2: when a record with the given id is present, `update` patches exactly
the fields present in the dto plus `updatedAt` (refreshed to the current
time), keeps `id` and `createdAt`, returns the patched record, and leaves
the counter and every other record (the prefix `l1` and suffix `l2` of the
array) untouched; the empty patch changes `updatedAt` only. -/
theorem c2_update_frame (s : ServiceState) (id : Nat) (p : UpdateTodoDto) (now : Nat)
    (t : Todo) (h : findOne s id = some t) :
    (applyPatch t p now).id = t.id
    ∧ (applyPatch t p now).createdAt = t.createdAt
    ∧ (applyPatch t p now).updatedAt = now
    ∧ (applyPatch t p now).title = p.title.getD t.title
    ∧ (applyPatch t p now).isCompleted = p.isCompleted.getD t.isCompleted
    ∧ applyPatch t { title := none, isCompleted := none } now = { t with updatedAt := now }
    ∧ ∃ l1 l2, s.todos = l1 ++ t :: l2
        ∧ (∀ x ∈ l1, (x.id == id) = false)
        ∧ update s id p now =
            (some (applyPatch t p now),
             { todos := l1 ++ applyPatch t p now :: l2, idCounter := s.idCounter }) := by
  have hf' : s.todos.find? (fun x => x.id == id) = some t := h
  have htid := List.find?_some hf'
  obtain ⟨l1, l2, hdec, hl1⟩ := find?_decomp hf'
  refine ⟨rfl, rfl, rfl, rfl, rfl, rfl, l1, l2, hdec, hl1, ?_⟩
  have hset : setFirst id (applyPatch t p now) s.todos = l1 ++ applyPatch t p now :: l2 := by
    rw [hdec]
    exact setFirst_decomp _ l2 hl1 htid
  simp only [update, h, hset]

/-- Closed witness for C2 at a concrete one-record state. -/
theorem c2_update_frame_witness :
    (applyPatch { id := 1, title := "milk", isCompleted := false, createdAt := 0, updatedAt := 0 }
        { title := none, isCompleted := some true } 5).updatedAt = 5
    ∧ (applyPatch { id := 1, title := "milk", isCompleted := false, createdAt := 0, updatedAt := 0 }
        { title := none, isCompleted := some true } 5).createdAt = 0
    ∧ (applyPatch { id := 1, title := "milk", isCompleted := false, createdAt := 0, updatedAt := 0 }
        { title := none, isCompleted := some true } 5).isCompleted
        = (some true).getD false := by
  have h := c2_update_frame
    { todos := [{ id := 1, title := "milk", isCompleted := false,
                  createdAt := 0, updatedAt := 0 }], idCounter := 2 }
    1 { title := none, isCompleted := some true } 5
    { id := 1, title := "milk", isCompleted := false, createdAt := 0, updatedAt := 0 }
    (by decide)
  exact ⟨h.2.2.1, h.2.1, h.2.2.2.2.1⟩

/-- C6: when no record matches the id, `update` returns the not-found value
`none` and returns with the whole state — the array and the id counter —
unchanged, whatever the patch. -/
theorem c6_update_not_found_no_effect (s : ServiceState) (id : Nat)
    (p : UpdateTodoDto) (now : Nat) (h : findOne s id = none) :
    update s id p now = (none, s) := by
  simp only [update, h]

/-- Closed witness for C6: updating id 5 in a one-record state. -/
theorem c6_update_not_found_no_effect_witness :
    update { todos := [{ id := 1, title := "milk", isCompleted := false,
                         createdAt := 0, updatedAt := 0 }], idCounter := 2 }
        5 { title := some "x", isCompleted := none } 9
      = (none,
         { todos := [{ id := 1, title := "milk", isCompleted := false,
                       createdAt := 0, updatedAt := 0 }], idCounter := 2 }) :=
  c6_update_not_found_no_effect
    { todos := [{ id := 1, title := "milk", isCompleted := false,
                  createdAt := 0, updatedAt := 0 }], idCounter := 2 }
    5 { title := some "x", isCompleted := none } 9 (by decide)

/-- C7 counterexample: the claim says every record has a non-empty title
because `create` requires a non-empty title string.  The code performs no
such validation (`CreateTodoDto` declares `title: string` with no
constraint and `TodoService.create` stores it verbatim): creating with the
empty string yields a record whose title is `""`. -/
theorem c7_counterexample :
    (findAll (run [Op.create "" 0])).map Todo.title = [""] := by
  decide

/-- C7 amended: `create` accepts any title string — the empty string
included — and stores it verbatim; `update` changes the title only when the
patch carries one.  (The non-emptiness requirement of the claim is not
enforced anywhere in the code.) -/
theorem c7_amended_title_stored_verbatim (s : ServiceState) (title : String) (now : Nat) :
    (create s title now).1.title = title
    ∧ (create s title now).2.todos = s.todos ++ [(create s title now).1]
    ∧ ∀ (t : Todo) (p : UpdateTodoDto) (n2 : Nat),
        (applyPatch t p n2).title = p.title.getD t.title :=
  ⟨rfl, rfl, fun _ _ _ => rfl⟩

/-- C10: `remove` is idempotent in effect — whatever the first `remove(id)`
returned, a second `remove(id)` returns `false` and leaves the array and
the id counter exactly as they were. -/
theorem c10_remove_idempotent (s : ServiceState) (id : Nat) :
    remove (remove s id).2 id = (false, (remove s id).2) := by
  have hff : ((s.todos.filter fun t => t.id != id).filter fun t => t.id != id)
      = s.todos.filter fun t => t.id != id :=
    List.filter_eq_self.mpr fun x hx => (List.mem_filter.mp hx).2
  simp only [remove, hff, bne_self_eq_false]

/-!  ## Trace shapes for C4 -/

def isCreate : Op → Bool
  | Op.create _ _ => true
  | _ => false

def isRemoveOp : Op → Bool
  | Op.remove _ => true
  | _ => false

def titleOf : Op → Option String
  | Op.create title _ => some title
  | _ => none

theorem foldl_all_creates (ops : List Op) :
    ∀ s : ServiceState, (∀ op ∈ ops, isCreate op = true) →
      (List.foldl step s ops).todos.map Todo.title
        = s.todos.map Todo.title ++ ops.filterMap titleOf := by
  induction ops with
  | nil => intro s _; simp
  | cons op ops ih =>
    intro s h
    cases op with
    | create title now =>
      simp only [List.foldl_cons, step]
      rw [ih (create s title now).2 fun o ho => h o (List.mem_cons_of_mem _ ho)]
      simp [create, titleOf]
    | update id p now =>
      have hc := h _ (List.mem_cons_self _ _)
      simp [isCreate] at hc
    | remove id =>
      have hc := h _ (List.mem_cons_self _ _)
      simp [isCreate] at hc

theorem filterMap_titleOf_length (ops : List Op)
    (h : ∀ op ∈ ops, isCreate op = true) :
    (ops.filterMap titleOf).length = ops.length := by
  induction ops with
  | nil => rfl
  | cons op ops ih =>
    cases op with
    | create title now =>
      simp only [List.filterMap_cons, titleOf, List.length_cons]
      rw [ih fun o ho => h o (List.mem_cons_of_mem _ ho)]
    | update id p now =>
      have hc := h _ (List.mem_cons_self _ _)
      simp [isCreate] at hc
    | remove id =>
      have hc := h _ (List.mem_cons_self _ _)
      simp [isCreate] at hc

theorem foldl_no_remove_length (ops : List Op) :
    ∀ s : ServiceState, (∀ op ∈ ops, isRemoveOp op = false) →
      (List.foldl step s ops).todos.length
        = s.todos.length + (ops.filter isCreate).length := by
  induction ops with
  | nil => intro s _; simp
  | cons op ops ih =>
    intro s h
    cases op with
    | create title now =>
      simp only [List.foldl_cons, step]
      rw [ih (create s title now).2 fun o ho => h o (List.mem_cons_of_mem _ ho)]
      rw [List.filter_cons_of_pos (by rfl)]
      simp only [create, List.length_append, List.length_cons, List.length_nil]
      omega
    | update id p now =>
      simp only [List.foldl_cons, step]
      rw [ih (update s id p now).2 fun o ho => h o (List.mem_cons_of_mem _ ho)]
      have hlen : (update s id p now).2.todos.length = s.todos.length := by
        rw [update]
        cases hf : findOne s id with
        | none => rfl
        | some t => exact setFirst_length id _ s.todos
      rw [hlen, List.filter_cons_of_neg (by simp [isCreate])]
    | remove id =>
      have hc := h _ (List.mem_cons_self _ _)
      simp [isRemoveOp] at hc

/-- C4: `findAll` always returns the full array; after any trace its ids are
strictly increasing along the array (= creation order, never reordered by
`update` or `remove`); on a fresh service it is empty; for a trace of `n`
creates and nothing else it has exactly `n` records whose titles are the
created titles in call order; and with no removes its length equals the
number of creates. -/
theorem c4_list_in_insertion_order (ops : List Op) :
    (idsOf (findAll (run ops))).Pairwise (· < ·)
    ∧ findAll initialState = []
    ∧ ((∀ op ∈ ops, isCreate op = true) →
        (findAll (run ops)).length = ops.length
        ∧ (findAll (run ops)).map Todo.title = ops.filterMap titleOf)
    ∧ ((∀ op ∈ ops, isRemoveOp op = false) →
        (findAll (run ops)).length = (ops.filter isCreate).length) := by
  refine ⟨(inv_run ops).1, rfl, ?_, ?_⟩
  · intro h
    have hmap' : (run ops).todos.map Todo.title = ops.filterMap titleOf := by
      simpa [run, initialState] using foldl_all_creates ops initialState h
    have hlen : (findAll (run ops)).length = (ops.filterMap titleOf).length := by
      rw [← hmap']
      exact (List.length_map _ _).symm
    exact ⟨hlen.trans (filterMap_titleOf_length ops h), hmap'⟩
  · intro h
    simpa [run, initialState, findAll] using foldl_no_remove_length ops initialState h

/-- Closed witness for C4: two creates. -/
theorem c4_list_in_insertion_order_witness :
    (findAll (run [Op.create "a" 0, Op.create "b" 1])).map Todo.title = ["a", "b"]
    ∧ (findAll (run [Op.create "a" 0, Op.create "b" 1])).length
        = [Op.create "a" 0, Op.create "b" 1].length := by
  have h := c4_list_in_insertion_order [Op.create "a" 0, Op.create "b" 1]
  exact ⟨(h.2.2.1 (by decide)).2, (h.2.2.1 (by decide)).1⟩

/-- C5: at any reachable state, `remove(id)` returns `false` and leaves the
state untouched when no record matches; otherwise it returns `true`,
removes exactly the matching record (every record with a different id
survives, every survivor comes from the old array, the length drops by
one), after which `findOne id` is not-found; the counter is never touched,
and a subsequent `create` never hands out the removed id again. -/
theorem c5_remove_behavior (ops : List Op) (id : Nat) :
    (remove (run ops) id).2.idCounter = (run ops).idCounter
    ∧ (findOne (run ops) id = none → remove (run ops) id = (false, run ops))
    ∧ ∀ t, findOne (run ops) id = some t →
        (remove (run ops) id).1 = true
        ∧ findOne (remove (run ops) id).2 id = none
        ∧ (remove (run ops) id).2.todos.length + 1 = (run ops).todos.length
        ∧ (∀ u ∈ (run ops).todos, u.id ≠ id → u ∈ (remove (run ops) id).2.todos)
        ∧ (∀ u ∈ (remove (run ops) id).2.todos, u ∈ (run ops).todos ∧ u.id ≠ id)
        ∧ ∀ title now, (create (remove (run ops) id).2 title now).1.id ≠ id := by
  obtain ⟨hpw, hbound⟩ := inv_run ops
  have hrt : (remove (run ops) id).2.todos
      = (run ops).todos.filter (fun u => u.id != id) := rfl
  refine ⟨rfl, ?_, ?_⟩
  · intro h
    have hfe : (run ops).todos.filter (fun t => t.id != id) = (run ops).todos := by
      apply List.filter_eq_self.mpr
      intro x hx
      have hne : x.id ≠ id := by simpa using List.find?_eq_none.mp h x hx
      simpa using hne
    simp only [remove, hfe, bne_self_eq_false]
  · intro t h
    have hf' : (run ops).todos.find? (fun x => x.id == id) = some t := h
    have htmem : t ∈ (run ops).todos := List.mem_of_find?_eq_some hf'
    have htid : t.id = id := by simpa using List.find?_some hf'
    refine ⟨?_, ?_, ?_, ?_, ?_, ?_⟩
    · have hlt : ((run ops).todos.filter fun u => u.id != id).length
          < (run ops).todos.length :=
        length_filter_lt_of_mem htmem (by simp [htid])
      simp only [remove]
      simpa using Nat.ne_of_lt hlt
    · rw [show findOne (remove (run ops) id).2 id
          = ((run ops).todos.filter (fun u => u.id != id)).find? (fun x => x.id == id)
          from rfl]
      apply List.find?_eq_none.mpr
      intro x hx
      have hx2 : x.id ≠ id := by simpa using (List.mem_filter.mp hx).2
      simpa using hx2
    · obtain ⟨l1, l2, hdec, hl1⟩ := find?_decomp hf'
      have hpw' := hpw
      rw [hdec] at hpw'
      have hsplit : idsOf (l1 ++ t :: l2) = idsOf l1 ++ (t.id :: idsOf l2) := by
        simp [idsOf]
      rw [hsplit] at hpw'
      have h2 := (List.pairwise_append.mp hpw').2.1
      have h3 := (List.pairwise_cons.mp h2).1
      have hl2 : ∀ x ∈ l2, x.id ≠ id := by
        intro x hx
        have := h3 x.id (by simp only [idsOf, List.mem_map]; exact ⟨x, hx, rfl⟩)
        omega
      have hfl : (run ops).todos.filter (fun u => u.id != id) = l1 ++ l2 := by
        rw [hdec, List.filter_append]
        have hfl1 : l1.filter (fun u => u.id != id) = l1 := by
          apply List.filter_eq_self.mpr
          intro x hx
          have : x.id ≠ id := by simpa using hl1 x hx
          simpa using this
        have hfl2 : l2.filter (fun u => u.id != id) = l2 := by
          apply List.filter_eq_self.mpr
          intro x hx
          simpa using hl2 x hx
        rw [hfl1, List.filter_cons_of_neg (by simp [htid]), hfl2]
      rw [hrt, hfl, hdec]
      simp only [List.length_append, List.length_cons]
      omega
    · intro u hu hune
      rw [hrt]
      exact List.mem_filter.mpr ⟨hu, by simpa using hune⟩
    · intro u hu
      rw [hrt] at hu
      have hm := List.mem_filter.mp hu
      exact ⟨hm.1, by simpa using hm.2⟩
    · intro title now
      have hid : id < (run ops).idCounter := htid ▸ hbound t htmem
      exact Nat.ne_of_gt hid

/-- Closed witness for C5: both branches at a one-create trace. -/
theorem c5_remove_behavior_witness :
    remove (run [Op.create "milk" 0]) 7 = (false, run [Op.create "milk" 0])
    ∧ (remove (run [Op.create "milk" 0]) 1).1 = true
    ∧ findOne (remove (run [Op.create "milk" 0]) 1).2 1 = none := by
  have h1 := (c5_remove_behavior [Op.create "milk" 0] 7).2.1 (by decide)
  have h2 := (c5_remove_behavior [Op.create "milk" 0] 1).2.2
    { id := 1, title := "milk", isCompleted := false, createdAt := 0, updatedAt := 0 }
    (by decide)
  exact ⟨h1, h2.1, h2.2.1⟩

/-!  ## Timestamps along a trace (C8) -/

/-- The clock values read by the mutating operations of a trace, in order
(`remove` never reads the clock). -/
def opTimes : List Op → List Nat
  | [] => []
  | Op.create _ now :: ops => now :: opTimes ops
  | Op.update _ _ now :: ops => now :: opTimes ops
  | Op.remove _ :: ops => opTimes ops

theorem foldl_createdAt_le (ops : List Op) :
    ∀ s : ServiceState, (opTimes ops).Pairwise (· ≤ ·) →
      (∀ u ∈ s.todos, u.createdAt ≤ u.updatedAt) →
      (∀ u ∈ s.todos, ∀ n ∈ opTimes ops, u.createdAt ≤ n) →
      ∀ u ∈ (List.foldl step s ops).todos, u.createdAt ≤ u.updatedAt := by
  induction ops with
  | nil => intro s _ h2 _; simpa using h2
  | cons op ops ih =>
    intro s hmono h2 h3
    cases op with
    | create title now =>
      simp only [List.foldl_cons, step]
      simp only [opTimes] at hmono
      have hhead := (List.pairwise_cons.mp hmono).1
      have htail := (List.pairwise_cons.mp hmono).2
      have hts : (create s title now).2.todos = s.todos ++ [(create s title now).1] := rfl
      apply ih (create s title now).2 htail
      · intro u hu
        rw [hts] at hu
        rcases List.mem_append.mp hu with hu | hu
        · exact h2 u hu
        · simp only [List.mem_singleton] at hu
          rw [hu]
          exact Nat.le_refl now
      · intro u hu n hn
        rw [hts] at hu
        rcases List.mem_append.mp hu with hu | hu
        · exact h3 u hu n (List.mem_cons_of_mem _ hn)
        · simp only [List.mem_singleton] at hu
          rw [hu]
          exact hhead n hn
    | update uid p now =>
      simp only [List.foldl_cons, step]
      simp only [opTimes] at hmono
      have hhead := (List.pairwise_cons.mp hmono).1
      have htail := (List.pairwise_cons.mp hmono).2
      cases hf : findOne s uid with
      | none =>
        have hs2 : (update s uid p now).2 = s := by simp only [update, hf]
        rw [hs2]
        exact ih s htail h2 fun u hu n hn => h3 u hu n (List.mem_cons_of_mem _ hn)
      | some t =>
        have htmem : t ∈ s.todos :=
          List.mem_of_find?_eq_some (show s.todos.find? (fun x => x.id == uid) = some t from hf)
        have hts : (update s uid p now).2.todos
            = setFirst uid (applyPatch t p now) s.todos := by
          simp only [update, hf]
        apply ih (update s uid p now).2 htail
        · intro u hu
          rw [hts] at hu
          rcases mem_setFirst hu with rfl | hu
          · exact h3 t htmem now (List.mem_cons_self _ _)
          · exact h2 u hu
        · intro u hu n hn
          rw [hts] at hu
          rcases mem_setFirst hu with rfl | hu
          · exact h3 t htmem n (List.mem_cons_of_mem _ hn)
          · exact h3 u hu n (List.mem_cons_of_mem _ hn)
    | remove rid =>
      simp only [List.foldl_cons, step]
      simp only [opTimes] at hmono
      have hrm : (remove s rid).2.todos = s.todos.filter (fun u => u.id != rid) := rfl
      apply ih (remove s rid).2 hmono
      · intro u hu
        rw [hrm] at hu
        exact h2 u (List.mem_filter.mp hu).1
      · intro u hu n hn
        rw [hrm] at hu
        exact h3 u (List.mem_filter.mp hu).1 n hn

/-- C8: whenever the clock values read along the trace are nondecreasing
(one clock, read in order), every record of the resulting state satisfies
`createdAt ≤ updatedAt`: `create` stamps both with the same time and only
`update` refreshes `updatedAt`, never `createdAt`. -/
theorem c8_createdAt_le_updatedAt (ops : List Op) (t : Todo)
    (hmono : (opTimes ops).Pairwise (· ≤ ·)) (hmem : t ∈ (run ops).todos) :
    t.createdAt ≤ t.updatedAt :=
  foldl_createdAt_le ops initialState hmono (by simp [initialState])
    (by simp [initialState]) t hmem

/-- Closed witness for C8: a create at time 1 followed by an update at
time 3. -/
theorem c8_createdAt_le_updatedAt_witness :
    ({ id := 1, title := "b", isCompleted := false, createdAt := 1, updatedAt := 3 }
      : Todo).createdAt
    ≤ ({ id := 1, title := "b", isCompleted := false, createdAt := 1, updatedAt := 3 }
      : Todo).updatedAt :=
  c8_createdAt_le_updatedAt
    [Op.create "a" 1, Op.update 1 { title := some "b", isCompleted := none } 3]
    { id := 1, title := "b", isCompleted := false, createdAt := 1, updatedAt := 3 }
    (by decide) (by decide)

/-!  ## C3: `findOne` returns the record most recently produced for an id

Modelled from the spec: `trackLast` follows a trace and records, for a
fixed id, the record most recently returned by `create` or by a successful
`update` for that id (`remove` of that id discards it).  C3 is the
statement that `findOne` agrees with this tracker at every reachable
state. -/

/-- Accumulator step for a produced record: a record returned by `create`
or `update` whose id matches becomes the new "most recently produced"
record. -/
def bump (id : Nat) (r : Option Todo) (acc : Option Todo) : Option Todo :=
  match r with
  | none => acc
  | some t => if t.id == id then some t else acc

theorem bump_none (id : Nat) (acc : Option Todo) : bump id none acc = acc := rfl

theorem bump_some (id : Nat) (t : Todo) (acc : Option Todo) :
    bump id (some t) acc = if t.id == id then some t else acc := rfl

/-- The record most recently produced (by `create` or successful `update`)
for `id` along the trace and still not removed, starting from state `s`
with current answer `acc`. -/
def trackLast (id : Nat) : ServiceState → List Op → Option Todo → Option Todo
  | _, [], acc => acc
  | s, Op.create title now :: ops, acc =>
      trackLast id (create s title now).2 ops
        (if (create s title now).1.id == id then some (create s title now).1 else acc)
  | s, Op.update uid p now :: ops, acc =>
      trackLast id (update s uid p now).2 ops (bump id (update s uid p now).1 acc)
  | s, Op.remove rid :: ops, acc =>
      trackLast id (remove s rid).2 ops (if rid == id then none else acc)

theorem findOne_create (s : ServiceState) (hinv : Inv s) (title : String) (now id : Nat) :
    findOne (create s title now).2 id
      = if (create s title now).1.id == id then some (create s title now).1
        else findOne s id := by
  have hts : (create s title now).2.todos = s.todos ++ [(create s title now).1] := rfl
  show ((create s title now).2.todos).find? (fun x => x.id == id) = _
  rw [hts, List.find?_append]
  cases hq : ((create s title now).1.id == id) with
  | true =>
    have hid : s.idCounter = id := by simpa [create] using hq
    rw [if_pos rfl]
    have hnone : s.todos.find? (fun x => x.id == id) = none := by
      apply List.find?_eq_none.mpr
      intro x hx
      have := hinv.2 x hx
      simp only [decide_eq_true_eq, beq_iff_eq]
      omega
    rw [hnone, Option.none_or]
    exact find?_cons_pos _ _ _ hq
  | false =>
    rw [if_neg (by simp)]
    have hnone2 : [(create s title now).1].find? (fun x => x.id == id) = none := by
      rw [find?_cons_neg (fun x => x.id == id) (create s title now).1 [] hq]
      rfl
    rw [hnone2, Option.or_none]
    rfl

theorem findOne_update_found (s : ServiceState) (uid : Nat)
    (p : UpdateTodoDto) (now id : Nat) (t : Todo) (hf : findOne s uid = some t) :
    findOne (update s uid p now).2 id
      = if (applyPatch t p now).id == id then some (applyPatch t p now)
        else findOne s id := by
  have hf' : s.todos.find? (fun x => x.id == uid) = some t := hf
  have htid : t.id = uid := by simpa using List.find?_some hf'
  have hpid : (applyPatch t p now).id = uid := htid
  have hts : (update s uid p now).2.todos = setFirst uid (applyPatch t p now) s.todos := by
    simp only [update, hf]
  cases hq : ((applyPatch t p now).id == id) with
  | true =>
    have huid : uid = id := by
      rw [← hpid]
      simpa using hq
    rw [if_pos rfl]
    show ((update s uid p now).2.todos).find? (fun x => x.id == id) = _
    rw [hts]
    obtain ⟨l1, l2, hdec, hl1⟩ := find?_decomp hf'
    rw [hdec, setFirst_decomp _ l2 hl1 (by simpa using htid), List.find?_append]
    have hnone : l1.find? (fun x => x.id == id) = none := by
      apply List.find?_eq_none.mpr
      intro x hx
      have hx1 : (x.id == uid) = false := hl1 x hx
      rw [← huid]
      simp [hx1]
    rw [hnone, Option.none_or]
    exact find?_cons_pos _ _ _ hq
  | false =>
    rw [if_neg (by simp)]
    have hne0 : (applyPatch t p now).id ≠ id := by simpa using hq
    have hne : uid ≠ id := hpid ▸ hne0
    show ((update s uid p now).2.todos).find? (fun x => x.id == id) = findOne s id
    rw [hts]
    exact find?_setFirst_ne hne hpid s.todos

theorem findOne_remove_op (s : ServiceState) (rid id : Nat) :
    findOne (remove s rid).2 id = if rid == id then none else findOne s id := by
  have hts : (remove s rid).2.todos = s.todos.filter (fun u => u.id != rid) := rfl
  show ((remove s rid).2.todos).find? (fun x => x.id == id) = _
  rw [hts]
  cases hq : (rid == id) with
  | true =>
    have hrid : rid = id := by simpa using hq
    rw [if_pos rfl]
    apply List.find?_eq_none.mpr
    intro x hx
    have hx2 : x.id ≠ rid := by simpa using (List.mem_filter.mp hx).2
    simp only [decide_eq_true_eq, beq_iff_eq]
    omega
  | false =>
    rw [if_neg (by simp)]
    have hne : rid ≠ id := by simpa using hq
    refine find?_filter_of_imp (fun x hx => ?_) s.todos
    have hxe : x.id = id := by simpa using hx
    have : x.id ≠ rid := by omega
    simpa using this

theorem foldl_findOne_trackLast (id : Nat) (ops : List Op) :
    ∀ s : ServiceState, Inv s →
      findOne (List.foldl step s ops) id = trackLast id s ops (findOne s id) := by
  induction ops with
  | nil => intro s _; rfl
  | cons op ops ih =>
    intro s hinv
    cases op with
    | create title now =>
      simp only [List.foldl_cons, step, trackLast]
      rw [ih (create s title now).2 (inv_create hinv title now),
        findOne_create s hinv title now id]
    | update uid p now =>
      simp only [List.foldl_cons, step, trackLast]
      cases hf : findOne s uid with
      | none =>
        have h1 : (update s uid p now).1 = none := by simp only [update, hf]
        have h2 : (update s uid p now).2 = s := by simp only [update, hf]
        rw [ih (update s uid p now).2 (inv_update hinv uid p now), h1, bump_none, h2]
      | some t =>
        have h1 : (update s uid p now).1 = some (applyPatch t p now) := by
          simp only [update, hf]
        rw [ih (update s uid p now).2 (inv_update hinv uid p now), h1, bump_some,
          findOne_update_found s uid p now id t hf]
    | remove rid =>
      simp only [List.foldl_cons, step, trackLast]
      rw [ih (remove s rid).2 (inv_remove hinv rid), findOne_remove_op s rid id]

/-- C3: for every trace and every id, `findOne` returns exactly the record
most recently produced by `create` or `update` for that id (with its
refreshed `updatedAt`) while it is still in the collection, and the
not-found value `none` otherwise.  `findOne` is a total function — the
not-found outcome is the value `none`, not an error. -/
theorem c3_getById_returns_last_produced (ops : List Op) (id : Nat) :
    findOne (run ops) id = trackLast id initialState ops none :=
  foldl_findOne_trackLast id ops initialState inv_initialState

/-!  ## The HTTP controller (C9)

`TodoController` receives the `:id` path segment as a string and hands the
service `+id`, JavaScript's numeric coercion of it.  `toNumber` embeds the
ES `ToNumber` conversion of a string: trim the WhiteSpace/LineTerminator
code points, then parse a `StrNumericLiteral` — an optionally signed
decimal literal with optional fraction and exponent, a signed `Infinity`,
or an unsigned `0x`/`0o`/`0b` radix literal — and anything else is `NaN`.
So `"1e1"` coerces to 10, `"+5"`, `" 5"` and `"5.0"` to 5, `"0x10"` to 16,
`""` to 0, and `"abc"` to `NaN` (see `toNumber_spot_checks`).

A numeric value is carried exactly as `mantissa * 10 ^ exponent`
(`JsNum.val`); JS numbers are idealized as exact values, the same
idealization the service embedding already uses for ids and the counter
(no double rounding or overflow).  `jsEqNat` is `===` between a record id
and such a value: `NaN` and `Infinity` equal no id, so a non-numeric
segment matches no record and falls into the not-found branch. -/

/-- Result of coercing a path segment: `NaN`, a signed infinity, or the
exact value `m * 10 ^ e`. -/
inductive JsNum where
  | nan
  | inf (neg : Bool)
  | val (m : Int) (e : Int)
  deriving Repr, DecidableEq

/-- Value of a string of decimal digits (callers check the digits). -/
def decDigits (l : List Char) : Nat :=
  l.foldl (fun acc c => acc * 10 + (c.toNat - 48)) 0

/-- Value of one digit in bases up to 16. -/
def hexVal (c : Char) : Option Nat :=
  if c.isDigit then some (c.toNat - 48)
  else if 'a' ≤ c ∧ c ≤ 'f' then some (c.toNat - 87)
  else if 'A' ≤ c ∧ c ≤ 'F' then some (c.toNat - 55)
  else none

/-- Value of a string of digits in the given base, `none` when some char
is not a digit of the base. -/
def radixDigits (base : Nat) (l : List Char) : Option Nat :=
  l.foldl (fun acc c =>
    match acc, hexVal c with
    | some n, some d => if d < base then some (n * base + d) else none
    | _, _ => none) (some 0)

/-- ES WhiteSpace and LineTerminator code points (TAB LF VT FF CR, the
Unicode space separators, NBSP, LS, PS, ZWNBSP). -/
def isWhite (c : Char) : Bool :=
  c.toNat == 9 || c.toNat == 10 || c.toNat == 11 || c.toNat == 12 || c.toNat == 13
    || c.toNat == 32 || c.toNat == 160 || c.toNat == 5760
    || (decide (8192 ≤ c.toNat) && decide (c.toNat ≤ 8202))
    || c.toNat == 8232 || c.toNat == 8233 || c.toNat == 8239 || c.toNat == 8287
    || c.toNat == 12288 || c.toNat == 65279

def trimWhite (l : List Char) : List Char :=
  ((l.dropWhile isWhite).reverse.dropWhile isWhite).reverse

/-- Exponent part after the `e`/`E`: an optional sign and then at least
one digit, nothing else. -/
def parseExpTail (l : List Char) : Option Int :=
  match l with
  | [] => none
  | c :: cs =>
    let sgnds : Bool × List Char :=
      if c == '+' then (false, cs) else if c == '-' then (true, cs) else (false, c :: cs)
    if sgnds.2 ≠ [] ∧ sgnds.2.all Char.isDigit then
      some (if sgnds.1 then -(decDigits sgnds.2 : Int) else (decDigits sgnds.2 : Int))
    else none

/-- `StrUnsignedDecimalLiteral`: `Infinity`, or digits with an optional
fraction (at least one digit on one side of the dot) and an optional
exponent. -/
def parseUnsignedDec (neg : Bool) (l : List Char) : JsNum :=
  if l = ['I', 'n', 'f', 'i', 'n', 'i', 't', 'y'] then JsNum.inf neg
  else
    let ds1 := l.takeWhile Char.isDigit
    let r1 := l.dropWhile Char.isDigit
    let hasDot : Bool := match r1 with | '.' :: _ => true | _ => false
    let ds2 := if hasDot then r1.tail.takeWhile Char.isDigit else []
    let r2 := if hasDot then r1.tail.dropWhile Char.isDigit else r1
    if ds1 = [] ∧ ds2 = [] then JsNum.nan
    else
      let m0 : Int := (decDigits (ds1 ++ ds2) : Int)
      let m : Int := if neg then -m0 else m0
      match r2 with
      | [] => JsNum.val m (-(ds2.length : Int))
      | c :: r3 =>
        if c == 'e' || c == 'E' then
          match parseExpTail r3 with
          | some ex => JsNum.val m (ex - (ds2.length : Int))
          | none => JsNum.nan
        else JsNum.nan

/-- `StrDecimalLiteral`: an optional single sign, then the unsigned
literal. -/
def parseSignedDec (l : List Char) : JsNum :=
  match l with
  | '+' :: rest => parseUnsignedDec false rest
  | '-' :: rest => parseUnsignedDec true rest
  | _ => parseUnsignedDec false l

/-- `NonDecimalIntegerLiteral` body after `0x`/`0o`/`0b`: at least one
digit of the base, nothing else, no sign. -/
def parseRadix (base : Nat) (l : List Char) : JsNum :=
  if l = [] then JsNum.nan
  else
    match radixDigits base l with
    | some n => JsNum.val (n : Int) 0
    | none => JsNum.nan

/-- ES `ToNumber` on a string: trim, empty means `0`, a `0x`/`0o`/`0b`
prefix selects a radix literal, otherwise a signed decimal literal;
anything that fits no production is `NaN`. -/
def toNumber (str : String) : JsNum :=
  let l := trimWhite str.data
  match l with
  | [] => JsNum.val 0 0
  | '0' :: c :: rest =>
    if c == 'x' || c == 'X' then parseRadix 16 rest
    else if c == 'o' || c == 'O' then parseRadix 8 rest
    else if c == 'b' || c == 'B' then parseRadix 2 rest
    else parseSignedDec l
  | _ => parseSignedDec l

/-- JS `===` between a record id (a natural number) and a coerced path
segment: `NaN` and the infinities equal nothing; an exact value
`m * 10 ^ e` equals `id` iff the rationals agree (cross-multiplied, so no
division is needed).  `-0` is `val 0 _` and still equals id `0`, as in
JS. -/
def jsEqNat (id : Nat) (n : JsNum) : Bool :=
  match n with
  | JsNum.nan => false
  | JsNum.inf _ => false
  | JsNum.val m e =>
    if 0 ≤ e then (id : Int) == m * (10 : Int) ^ e.toNat
    else (id : Int) * (10 : Int) ^ (-e).toNat == m

/-- Spot checks of the coercion against JS `ToNumber` on the interesting
segment shapes, the reviewer-visible corners included. -/
theorem toNumber_spot_checks :
    jsEqNat 10 (toNumber "1e1") = true
    ∧ jsEqNat 5 (toNumber "+5") = true
    ∧ jsEqNat 5 (toNumber " 5") = true
    ∧ jsEqNat 5 (toNumber "5.0") = true
    ∧ jsEqNat 16 (toNumber "0x10") = true
    ∧ jsEqNat 12 (toNumber "1.2e1") = true
    ∧ jsEqNat 0 (toNumber "") = true
    ∧ jsEqNat 0 (toNumber "-0") = true
    ∧ toNumber "abc" = JsNum.nan
    ∧ toNumber "1e" = JsNum.nan
    ∧ toNumber "0x" = JsNum.nan
    ∧ toNumber "1.2.3" = JsNum.nan
    ∧ jsEqNat 5 (toNumber "5.5") = false
    ∧ jsEqNat 3 (toNumber "-3") = false
    ∧ (∀ id : Nat, jsEqNat id (toNumber "Infinity") = false) := by
  refine ⟨by decide, by decide, by decide, by decide, by decide, by decide, by decide,
    by decide, by decide, by decide, by decide, by decide, by decide, by decide, ?_⟩
  intro id
  rfl

/-- Lookup `TodoService.findOne` as called by the controller:
`todo.id === id` where the argument is the coerced segment. -/
def findOneJs (s : ServiceState) (n : JsNum) : Option Todo :=
  s.todos.find? (fun t => jsEqNat t.id n)

def setFirstJs (n : JsNum) (t' : Todo) : List Todo → List Todo
  | [] => []
  | t :: ts => if jsEqNat t.id n then t' :: ts else t :: setFirstJs n t' ts

/-- Operation `TodoService.update` as called by the controller. -/
def updateJs (s : ServiceState) (n : JsNum) (p : UpdateTodoDto) (now : Nat) :
    Option Todo × ServiceState :=
  match findOneJs s n with
  | none => (none, s)
  | some t =>
    let t' := applyPatch t p now
    (some t', { s with todos := setFirstJs n t' s.todos })

/-- Operation `TodoService.remove` as called by the controller:
`todo.id !== id`. -/
def removeJs (s : ServiceState) (n : JsNum) : Bool × ServiceState :=
  let remaining := s.todos.filter (fun t => !(jsEqNat t.id n))
  (remaining.length != s.todos.length, { s with todos := remaining })

def notFoundMsg (idStr : String) : String :=
  "Todo with ID " ++ idStr ++ " not found"

/-- Controller route `TodoController.findOne`: 404 (`Except.error` with the
message) when the service returns no record. -/
def ctrlFindOne (s : ServiceState) (idStr : String) : Except String Todo :=
  match findOneJs s (toNumber idStr) with
  | none => Except.error (notFoundMsg idStr)
  | some t => Except.ok t

/-- Controller route `TodoController.update`. -/
def ctrlUpdate (s : ServiceState) (idStr : String) (p : UpdateTodoDto) (now : Nat) :
    Except String Todo × ServiceState :=
  match updateJs s (toNumber idStr) p now with
  | (none, s') => (Except.error (notFoundMsg idStr), s')
  | (some t, s') => (Except.ok t, s')

/-- Controller route `TodoController.remove`: success body `{message: "Todo
deleted successfully"}` (embedded as the message string), 404 otherwise. -/
def ctrlRemove (s : ServiceState) (idStr : String) : Except String String × ServiceState :=
  let r := removeJs s (toNumber idStr)
  if r.1 then (Except.ok "Todo deleted successfully", r.2)
  else (Except.error (notFoundMsg idStr), r.2)

/-- C9: for an id path segment whose coerced value matches no record, GET,
PUT and DELETE all answer not-found with the message
`Todo with ID {id} not found` (built from the raw segment) and leave the
state unchanged; a matching DELETE answers `Todo deleted successfully`;
and a segment that fits no numeric production coerces to `NaN`, which
matches no record in any state, so it falls into the same not-found
branch rather than a distinct error kind. -/
theorem c9_controller_not_found (s : ServiceState) (badStr goodStr : String)
    (p : UpdateTodoDto) (now : Nat) (t : Todo)
    (hbad : findOneJs s (toNumber badStr) = none)
    (hgood : findOneJs s (toNumber goodStr) = some t) :
    ctrlFindOne s badStr = Except.error ("Todo with ID " ++ badStr ++ " not found")
    ∧ ctrlUpdate s badStr p now
        = (Except.error ("Todo with ID " ++ badStr ++ " not found"), s)
    ∧ ctrlRemove s badStr
        = (Except.error ("Todo with ID " ++ badStr ++ " not found"), s)
    ∧ (ctrlRemove s goodStr).1 = Except.ok "Todo deleted successfully"
    ∧ ∀ str : String, toNumber str = JsNum.nan →
        ∀ s2 : ServiceState, findOneJs s2 (toNumber str) = none := by
  have hfe : s.todos.filter (fun u => !(jsEqNat u.id (toNumber badStr))) = s.todos := by
    apply List.filter_eq_self.mpr
    intro x hx
    have hne : jsEqNat x.id (toNumber badStr) = false := by
      simpa using List.find?_eq_none.mp hbad x hx
    simp [hne]
  have hr : removeJs s (toNumber badStr) = (false, s) := by
    simp only [removeJs, hfe, bne_self_eq_false]
  refine ⟨?_, ?_, ?_, ?_, ?_⟩
  · simp [ctrlFindOne, hbad, notFoundMsg]
  · have hup : updateJs s (toNumber badStr) p now = (none, s) := by
      simp only [updateJs, hbad]
    simp [ctrlUpdate, hup, notFoundMsg]
  · simp [ctrlRemove, hr, notFoundMsg]
  · have hgood' : s.todos.find? (fun x => jsEqNat x.id (toNumber goodStr)) = some t :=
      hgood
    have htmem : t ∈ s.todos := List.mem_of_find?_eq_some hgood'
    have hteq : jsEqNat t.id (toNumber goodStr) = true := by
      simpa using List.find?_some hgood'
    have hlt : (s.todos.filter fun u => !(jsEqNat u.id (toNumber goodStr))).length
        < s.todos.length := by
      apply length_filter_lt_of_mem htmem
      simp [hteq]
    have hr1 : (removeJs s (toNumber goodStr)).1 = true := by
      simp only [removeJs]
      simpa using Nat.ne_of_lt hlt
    simp [ctrlRemove, hr1]
  · intro str hnan s2
    rw [show findOneJs s2 (toNumber str)
        = s2.todos.find? (fun t2 => jsEqNat t2.id (toNumber str)) from rfl, hnan]
    apply List.find?_eq_none.mpr
    intro x hx
    simp [jsEqNat]

/-- Closed witness for C9: one record with id 1; the segment `"abc"`
coerces to `NaN` and matches nothing, the segment `"1"` deletes the
record. -/
theorem c9_controller_not_found_witness :
    ctrlFindOne (run [Op.create "milk" 0]) "abc"
      = Except.error ("Todo with ID " ++ "abc" ++ " not found")
    ∧ (ctrlRemove (run [Op.create "milk" 0]) "1").1
      = Except.ok "Todo deleted successfully" := by
  have h := c9_controller_not_found (run [Op.create "milk" 0]) "abc" "1"
    { title := none, isCompleted := none } 0
    { id := 1, title := "milk", isCompleted := false, createdAt := 0, updatedAt := 0 }
    (by decide) (by decide)
  exact ⟨h.1, h.2.2.2.1⟩

end TodoApp
